import Mathlib

/-!
# Verification of the ecom-tts multi-source retrieval fusion engine

Shallow embedding of the orchestrator's core (recommendation_service.py,
llm_service.py, cypher_generator.py, the search clients, the request
schema and the `/api/v1/search` handler), with theorems settling the
specification's claims about it.

Python floats are modelled as rationals (`ℚ`); Python dictionaries as
insertion-ordered association lists with dict semantics (unique keys,
`d[k] = v` keeps the key's position); object identity / in-place
mutation of result dictionaries is modelled with an explicit heap of
dictionaries addressed by natural-number references.  A Python
expression that raises is modelled by `none` / `Except.error`.
-/

/-- A Python value as it appears in the result dictionaries flowing
through the engine (JSON-like). -/
inductive Value where
  | null
  | bool (b : Bool)
  | str (s : String)
  | num (q : ℚ)
  | list (xs : List Value)
  | dict (xs : List (String × Value))
deriving Repr, Inhabited

/-- Python `==` between dictionary keys.  Keys must be hashable, so the
engine only ever compares scalars here (an unhashable container key
would have raised before any comparison; such keys never match).
Python's numeric tower makes `True == 1` hold across bool/number. -/
def Value.keyEq : Value → Value → Bool
  | .null, .null => true
  | .bool a, .bool b => a == b
  | .str a, .str b => a == b
  | .num a, .num b => a == b
  | .bool a, .num b => (if a then (1 : ℚ) else 0) == b
  | .num a, .bool b => a == (if b then (1 : ℚ) else 0)
  | _, _ => false

/-- A Python dictionary: insertion-ordered association list with unique
keys (all operations below preserve uniqueness and order, as CPython
dicts do). -/
abbrev Dict := List (String × Value)

/-- `d.get(k)` / `k in d` lookup: the binding for `k`, if any. -/
def Dict.lookup (d : Dict) (k : String) : Option Value :=
  match d with
  | [] => none
  | (k', v) :: rest => if k' = k then some v else Dict.lookup rest k

/-- Python `d.get(k, default)`: the default is used only when the key is
absent (a key present with value `None` yields `None`). -/
def Dict.getd (d : Dict) (k : String) (dflt : Value) : Value :=
  (d.lookup k).getD dflt

/-- Python `d[k] = v`: replace the first binding of `k` in place, else
append a fresh binding (CPython keeps the key's original position). -/
def Dict.setKey (d : Dict) (k : String) (v : Value) : Dict :=
  match d with
  | [] => [(k, v)]
  | (k', v') :: rest =>
      if k' = k then (k', v) :: rest else (k', v') :: Dict.setKey rest k v

/-- Python `d.update(other)`: for each binding of `other` in order,
`d[key] = value` — existing keys are overwritten. -/
def Dict.updateWith (d other : Dict) : Dict :=
  other.foldl (fun acc kv => acc.setKey kv.1 kv.2) d

/-- Python truthiness of a value (`if x:`): `None`, `False`, `0`, and
empty string/list/dict are falsy. -/
def Value.truthy : Value → Bool
  | .null => false
  | .bool b => b
  | .str s => !s.isEmpty
  | .num q => q != 0
  | .list xs => !xs.isEmpty
  | .dict xs => !xs.isEmpty

/-- Python `float(x)` on the values the engine feeds it: numbers pass
through, booleans coerce to 0/1; anything else raises (`none`).
(Numeric-string coercion is not modelled; no claim exercises it.) -/
def pyFloat : Value → Option ℚ
  | .num q => some q
  | .bool b => some (if b then 1 else 0)
  | _ => none

/-- Python `round(x, 4)` for a rational `x`: round half to even at four
decimal places. -/
def round4 (q : ℚ) : ℚ :=
  let x : ℚ := q * 10000
  let n : ℤ := ⌊x⌋
  let frac : ℚ := x - n
  let r : ℤ :=
    if frac < 1/2 then n
    else if frac > 1/2 then n + 1
    else if n % 2 = 0 then n else n + 1
  (r : ℚ) / 10000

/-- Python `round(x, 4)` applied to a stored `Value` (line 107 of
recommendation_service.py applies it to the raw stored score): numbers
and booleans are rounded, anything else raises `TypeError` (`none`). -/
def pyRound4 (v : Value) : Option ℚ :=
  (pyFloat v).map round4

/-- A reference to a dictionary object on the heap. -/
abbrev Ref := Nat

/-- The heap of result-dictionary objects; the two input lists hold
references into it, so shared objects and in-place `dict.update` are
observable. -/
abbrev Heap := List Dict

/-- Dereference (out-of-range reads never occur on the flows studied). -/
def Heap.read (h : Heap) (r : Ref) : Dict :=
  h.getD r []

/-- Overwrite the object at a reference. -/
def Heap.write (h : Heap) (r : Ref) (d : Dict) : Heap :=
  h.set r d

/-!
## RecommendationService
(src/orchestrator/app/services/recommendation_service.py)
-/

/-- The source tags a candidate's `sources` set can hold; the code only
ever inserts the strings "semantic" and "graph", so the set is modelled
by two membership flags. -/
structure Sources where
  semantic : Bool
  graph : Bool
deriving BEq, Repr

/-- `list(sources)` for the response payload (Python set iteration
order is not significant to any claim; membership is). -/
def Sources.toList (s : Sources) : List String :=
  (if s.semantic then ["semantic"] else []) ++ (if s.graph then ["graph"] else [])

/-- The fusion weights configured on `RecommendationService`
(`semantic_weight`, `graph_weight`, `diversity_boost`). -/
structure FusionConfig where
  semantic_weight : ℚ
  graph_weight : ℚ
  diversity_boost : ℚ

/-- The defaults from `RecommendationService.__init__` and
`main.get_recommendation_service`: 0.5 / 0.5 / 0.05. -/
def defaultConfig : FusionConfig :=
  { semantic_weight := 1/2, graph_weight := 1/2, diversity_boost := 1/20 }

/-- `RecommendationService._calculate_combined_score` (lines 119-148):
weighted sum plus diversity boost when both sources are present, the
single source's score otherwise, 0 with no source; capped at 1.0. -/
def calculate_combined_score (cfg : FusionConfig) (semantic_score graph_score : ℚ)
    (sources : Sources) : ℚ :=
  let combined_boost : ℚ × ℚ :=
    if sources.semantic && sources.graph then
      (cfg.semantic_weight * semantic_score + cfg.graph_weight * graph_score,
       cfg.diversity_boost)
    else if sources.semantic then (semantic_score, 0)
    else if sources.graph then (graph_score, 0)
    else (0, 0)
  min (combined_boost.1 + combined_boost.2) 1

/-- One value of the `product_scores` accumulator of `combine_results`
(lines 33-41): raw stored semantic score, relevance score, a reference
to the data dictionary (`None` until first set), and the source tags. -/
structure Entry where
  semantic_score : Value
  graph_score : ℚ
  data : Option Ref
  sources : Sources
deriving Repr

/-- A fresh accumulator entry as built by `get_product_entry`
(lines 34-40). -/
def Entry.fresh : Entry :=
  { semantic_score := .num 0, graph_score := 0, data := none,
    sources := { semantic := false, graph := false } }

/-- The `product_scores` dict: keyed by the product-id value, in
insertion order (CPython dicts preserve it). -/
abbrev ProductScores := List (Value × Entry)

/-- Lookup in `product_scores` by product id (Python `==` on keys). -/
def lookupEntry (ps : ProductScores) (pid : Value) : Option Entry :=
  match ps with
  | [] => none
  | (k, e) :: rest => if k.keyEq pid then some e else lookupEntry rest pid

/-- Write-back of a mutated entry: replaces the key's binding in place,
appending if absent (this is `get_product_entry` plus the in-place
field mutations of the loop bodies). -/
def setEntry (ps : ProductScores) (pid : Value) (e : Entry) : ProductScores :=
  match ps with
  | [] => [(pid, e)]
  | (k, e') :: rest =>
      if k.keyEq pid then (k, e) :: rest else (k, e') :: setEntry rest pid e

/-- Line 45: `result.get("product_id", result.get("id"))`. -/
def pidOfSemantic (d : Dict) : Value :=
  match d.lookup "product_id" with
  | some v => v
  | none => (d.lookup "id").getD .null

/-- Line 55: `result.get("id", result.get("product_id"))`. -/
def pidOfGraph (d : Dict) : Value :=
  match d.lookup "id" with
  | some v => v
  | none => (d.lookup "product_id").getD .null

/-- The semantic-results loop of `combine_results` (lines 44-51): for
each result with a truthy id, set the entry's semantic score from its
`score` field (default 0.0), tag the source, and point `data` at the
result object if not yet set.  The heap is not mutated here. -/
def processSemantic (heap : Heap) (ps : ProductScores) : List Ref → ProductScores
  | [] => ps
  | r :: rest =>
      let d := heap.read r
      let pid := pidOfSemantic d
      if pid.truthy then
        let e := (lookupEntry ps pid).getD Entry.fresh
        let e' : Entry :=
          { e with semantic_score := d.getd "score" (.num 0),
                   sources := { e.sources with semantic := true },
                   data := if e.data.isNone then some r else e.data }
        processSemantic heap (setEntry ps pid e') rest
      else processSemantic heap ps rest

/-- The graph-results loop of `combine_results` (lines 54-62): for each
result with a truthy id, tag the source; if the entry has no data yet,
point it at the graph result object, otherwise mutate the existing data
object in place with `dict.update` (graph fields overwrite). -/
def processGraph (heap : Heap) (ps : ProductScores) : List Ref → ProductScores × Heap
  | [] => (ps, heap)
  | r :: rest =>
      let d := heap.read r
      let pid := pidOfGraph d
      if pid.truthy then
        let e := (lookupEntry ps pid).getD Entry.fresh
        match e.data with
        | none =>
            let e' : Entry :=
              { e with sources := { e.sources with graph := true }, data := some r }
            processGraph heap (setEntry ps pid e') rest
        | some dr =>
            let e' : Entry :=
              { e with sources := { e.sources with graph := true } }
            let heap' := heap.write dr ((heap.read dr).updateWith (heap.read r))
            processGraph heap' (setEntry ps pid e') rest
      else processGraph heap ps rest

/-- Both aggregation loops (lines 30-62): the candidate set in
first-appearance order, and the possibly mutated heap. -/
def aggregate (heap : Heap) (semantic_results graph_results : List Ref) :
    ProductScores × Heap :=
  processGraph heap (processSemantic heap [] semantic_results) graph_results

/-- One element of `scored_products` (lines 87-94).  `semantic_score`
keeps the raw stored value (line 89 stores it unconverted); `data` is
the reference stored in the entry. -/
structure ScoredProduct where
  product_id : Value
  semantic_score : Value
  graph_score : ℚ
  combined_score : ℚ
  data : Option Ref
  sources : Sources
deriving Repr

/-- The scoring loop of `combine_results` (lines 64-94).  The relevance
scorer is an oracle taking the candidate's data dictionary and the
query; `Except.error` models a raised exception, recovered to the 0.5
default by the `try/except` (lines 71-76; an entry with no data object
makes `score_relevance` raise internally, with the same recovery).
`float(scores["semantic_score"])` (line 82) runs outside any handler,
so a non-numeric stored score aborts the request (`none`). -/
def scoreProducts (cfg : FusionConfig) (scorer : Dict → String → Except Unit ℚ)
    (query : String) (heap : Heap) : ProductScores → Option (List ScoredProduct)
  | [] => some []
  | (pid, e) :: rest =>
      let g : ℚ :=
        match e.data with
        | some r =>
            match scorer (heap.read r) query with
            | .ok q => q
            | .error _ => 1/2
        | none => 1/2
      match pyFloat e.semantic_score with
      | none => none
      | some s =>
          match scoreProducts cfg scorer query heap rest with
          | none => none
          | some tail =>
              some ({ product_id := pid, semantic_score := e.semantic_score,
                      graph_score := g,
                      combined_score := calculate_combined_score cfg s g e.sources,
                      data := e.data, sources := e.sources } :: tail)

/-- The sort comparator: Python `sort(key=combined_score, reverse=True)`
is a stable descending sort, i.e. a stable merge sort under this
boolean order. -/
def scoredLE (a b : ScoredProduct) : Bool :=
  decide (b.combined_score ≤ a.combined_score)

/-- Python list slicing `l[:n]` (line 101): a negative bound counts
from the end, clamped at the front. -/
def pyTake {α : Type} (n : ℤ) (l : List α) : List α :=
  if n < 0 then l.take ((l.length : ℤ) + n).toNat else l.take n.toNat

/-- One element of the final result list (lines 102-114). -/
structure FinalResult where
  product_id : Value
  name : Value
  brand : Value
  price : Value
  semantic_score : ℚ
  graph_score : ℚ
  combined_score : ℚ
  description : Value
  color : Value
  category : Value
  sources : List String
deriving Repr

/-- Building one final result (lines 101-115): field projections from
the data dictionary with the source's defaults, scores rounded to four
decimals.  `item["data"].get(...)` raises if `data` is `None`, and
`round` raises on a non-numeric stored semantic score. -/
def finalizeItem (heap : Heap) (it : ScoredProduct) : Option FinalResult :=
  match it.data with
  | none => none
  | some dr =>
      match pyRound4 it.semantic_score with
      | none => none
      | some s =>
          let d := heap.read dr
          some { product_id := it.product_id,
                 name := d.getd "name" (.str ""),
                 brand := d.getd "brand" (.str ""),
                 price := d.getd "price" (.num 0),
                 semantic_score := s,
                 graph_score := round4 it.graph_score,
                 combined_score := round4 it.combined_score,
                 description := d.getd "description" (.str ""),
                 color := d.getd "color" (.str ""),
                 category := d.getd "category" .null,
                 sources := it.sources.toList }

/-- Building the final result list from the truncated sorted list, in
order; `none` as soon as one item raises. -/
def mapSome {α β : Type} (f : α → Option β) : List α → Option (List β)
  | [] => some []
  | a :: rest =>
      match f a with
      | none => none
      | some b =>
          match mapSome f rest with
          | none => none
          | some bs => some (b :: bs)

/-- `RecommendationService.combine_results` (lines 20-117): aggregate
the two result lists, score every candidate, stable-sort descending by
combined score, truncate to the limit, and build the response records.
Returns the final list and the heap after the in-place merges; `none`
models an exception escaping to the caller. -/
def combine_results (cfg : FusionConfig) (scorer : Dict → String → Except Unit ℚ)
    (heap : Heap) (semantic_results graph_results : List Ref)
    (query : String) (limit : ℤ) : Option (List FinalResult × Heap) :=
  let ps := (aggregate heap semantic_results graph_results).1
  let heap' := (aggregate heap semantic_results graph_results).2
  match scoreProducts cfg scorer query heap' ps with
  | none => none
  | some scored =>
      match mapSome (finalizeItem heap') (pyTake limit (scored.mergeSort scoredLE)) with
      | none => none
      | some finals => some (finals, heap')

/-!
## Python string operations

Implemented over character lists so that every operation the engine
performs on backend text is an executable structural function.
-/

/-- The characters Python `str.strip()` removes. -/
def pyWS (c : Char) : Bool :=
  c = ' ' || c = '\t' || c = '\n' || c = '\r' || c = '\x0b' || c = '\x0c'

/-- Python `str.strip()`. -/
def pyStrip (s : String) : String :=
  String.mk ((((s.toList.dropWhile pyWS).reverse).dropWhile pyWS).reverse)

/-- Python `str.startswith(p)`. -/
def pyStartsWith (s p : String) : Bool :=
  p.toList.isPrefixOf s.toList

/-- Python `s.split("\n")` on character lists. -/
def splitNl : List Char → List (List Char)
  | [] => [[]]
  | c :: rest =>
      if c = '\n' then [] :: splitNl rest
      else
        match splitNl rest with
        | [] => [[c]]
        | g :: gs => (c :: g) :: gs

/-- Python `s.split("\n")`. -/
def pySplitNl (s : String) : List String :=
  (splitNl s.toList).map String.mk

/-- Python `"\n".join(ls)`. -/
def pyJoinNl (ls : List String) : String :=
  String.mk (List.intercalate ['\n'] (ls.map String.toList))

/-- Python `str.replace(old, new)`: leftmost, non-overlapping, all
occurrences.  The fuel argument dominates the scan (each step consumes
at least one character when `old` is non-empty; the engine never calls
this with an empty `old`). -/
def replaceAux (old new : List Char) : ℕ → List Char → List Char
  | 0, l => l
  | fuel + 1, l =>
      match l with
      | [] => []
      | c :: rest =>
          if !old.isEmpty && old.isPrefixOf l then
            new ++ replaceAux old new fuel (l.drop old.length)
          else c :: replaceAux old new fuel rest

/-- Python `s.replace(old, new)`. -/
def pyReplace (s old new : String) : String :=
  String.mk (replaceAux old.toList new.toList s.toList.length s.toList)

/-!
## LLMService (src/orchestrator/app/services/llm_service.py)

`_generate` returns the backend response already `.strip()`-ed (line
40) or raises; it is modelled as an oracle outcome
`Except Unit String` carrying that stripped text.
-/

/-- The first match of the regex `(\d+\.?\d*)` in a character list
(line 152): scan to the first digit, take the maximal digit run, then
an optional dot followed by a maximal digit run.  Returns the integer
and fraction digit runs. -/
def extractNumber : List Char → Option (List Char × List Char)
  | [] => none
  | c :: rest =>
      if c.isDigit then
        let ip := (c :: rest).takeWhile Char.isDigit
        match (c :: rest).dropWhile Char.isDigit with
        | '.' :: r2 => some (ip, r2.takeWhile Char.isDigit)
        | _ => some (ip, [])
      else extractNumber rest

/-- Digit run to a natural number. -/
def digitsToNat (ds : List Char) : ℕ :=
  ds.foldl (fun n c => 10 * n + (c.toNat - 48)) 0

/-- Python `float` of the matched group `<int>[.<frac>]`. -/
def parseNumber (ip fp : List Char) : ℚ :=
  (digitsToNat ip : ℚ) + (digitsToNat fp : ℚ) / (10 : ℚ) ^ fp.length

/-- `LLMService.score_relevance` (lines 147-163), given the outcome of
the `_generate` call on the scoring prompt: extract the first
decimal-number-shaped substring and clamp it into [0,1]; if none is
found, or the call raised, return the neutral default 0.5. -/
def score_relevance (gen : Except Unit String) : ℚ :=
  match gen with
  | .error _ => 1/2
  | .ok score_text =>
      match extractNumber score_text.toList with
      | some (ip, fp) => max 0 (min 1 (parseNumber ip fp))
      | none => 1/2

/-- The deterministic full-text fallback query (llm_service.py line 88
and cypher_generator.py lines 30 and 79 — the same f-string). -/
def fallbackQuery (user_query : String) : String :=
  "CALL db.index.fulltext.queryNodes(\x27productSearch\x27, \x27" ++ user_query ++
    "\x27) YIELD node RETURN node LIMIT 10"

/-- The markdown-fence cleanup shared by `LLMService.generate_cypher`
(lines 75-80) and `CypherGenerator.generate_cypher` (lines 66-71): if
the text starts with a fence, either drop the first and last lines
(when there are more than two) or strip the fence markers. -/
def sanitizeCypher (cypher : String) : String :=
  if pyStartsWith cypher ("\x60\x60\x60") then
    let lines := pySplitNl cypher
    if lines.length > 2 then pyJoinNl (lines.drop 1).dropLast
    else pyStrip (pyReplace (pyReplace cypher ("\x60\x60\x60cypher") ("")) ("\x60\x60\x60") (""))
  else cypher

/-- `LLMService.generate_cypher` (lines 45-88): on a successful
generation, the sanitized (fence-cleaned) stripped response; on a
raised exception, the deterministic fallback query. -/
def generate_cypher (gen : Except Unit String) (user_query : String) : String :=
  match gen with
  | .ok cypher => sanitizeCypher cypher
  | .error _ => fallbackQuery user_query

/-- `LLMService.generate_search_terms` (lines 90-114): the stripped
response on success, the original query on failure. -/
def generate_search_terms (gen : Except Unit String) (user_query : String) : String :=
  match gen with
  | .ok search_terms => search_terms
  | .error _ => user_query

/-!
## CypherGenerator (src/orchestrator/app/services/cypher_generator.py)

`self.client` is `None` when no API key is configured; a call's
generation backend is an oracle consulted only when a client exists.
-/

/-- `CypherGenerator.generate_cypher` (lines 26-79): with no client the
pure fallback; otherwise the sanitized backend completion, falling back
on exceptions. -/
def cg_generate_cypher (hasClient : Bool) (backend : String → Except Unit String)
    (user_query : String) : String :=
  if hasClient then
    match backend user_query with
    | .ok content => sanitizeCypher (pyStrip content)
    | .error _ => fallbackQuery user_query
  else fallbackQuery user_query

/-- `CypherGenerator.generate_search_query_for_semantic` (lines 81-111):
with no client the original query unmodified; otherwise the stripped
backend completion, falling back to the original query on exceptions. -/
def cg_generate_search_query_for_semantic (hasClient : Bool)
    (backend : String → Except Unit String) (user_query : String) : String :=
  if hasClient then
    match backend user_query with
    | .ok content => pyStrip content
    | .error _ => user_query
  else user_query

/-!
## Request schema and clients
(src/orchestrator/app/models/schemas.py, app/clients/, main.py)
-/

/-- `ProductQueryRequest` (schemas.py lines 66-69). -/
structure ProductQueryRequest where
  query : String
  limit : ℤ
  min_semantic_score : ℚ
deriving Repr

/-- Pydantic validation of `ProductQueryRequest`: `query` is a required
string, `limit` an optional integer defaulting to 10,
`min_semantic_score` an optional number defaulting to 0.3.  No further
constraint is declared on the model. -/
def validateProductQueryRequest (body : Dict) : Except String ProductQueryRequest := do
  let q ← match body.lookup "query" with
    | some (.str s) => Except.ok s
    | some _ => Except.error "query: Input should be a valid string"
    | none => Except.error "query: Field required"
  let lim ← match body.lookup "limit" with
    | some (.num v) =>
        if v.den = 1 then Except.ok v.num
        else Except.error "limit: Input should be a valid integer"
    | some _ => Except.error "limit: Input should be a valid integer"
    | none => Except.ok 10
  let ms ← match body.lookup "min_semantic_score" with
    | some (.num v) => Except.ok v
    | some _ => Except.error "min_semantic_score: Input should be a valid number"
    | none => Except.ok (3/10)
  return { query := q, limit := lim, min_semantic_score := ms }

/-- `SemanticEngineClient.search` (semantic_client.py lines 21-42): the
backend outcome is a list of result references on success; every
exception is caught and recovered as the empty list (lines 40-42). -/
def semanticClientSearch (outcome : Except Unit (List Ref)) : List Ref :=
  match outcome with
  | .ok l => l
  | .error _ => []

/-- `GraphServiceClient.search_products` (graph_client.py lines 78-117):
every exception is caught and recovered as the empty list
(lines 115-117). -/
def graphClientSearch (outcome : Except Unit (List Ref)) : List Ref :=
  match outcome with
  | .ok l => l
  | .error _ => []

/-- `ProductQueryResponse` (schemas.py lines 72-78). -/
structure ProductQueryResponse where
  query : String
  cypher_query : String
  search_terms : String
  semantic_results_count : ℕ
  graph_results_count : ℕ
  recommendations : List FinalResult
deriving Repr

/-- The keyword parameters accepted by `LLMService.__init__`
(llm_service.py line 12): `base_url` and `model`. -/
def llmServiceInitParams : List String := ["base_url", "model"]

/-- The keyword arguments of the constructor call inside
`get_llm_service` (main.py line 50): `LLMService(api_key=GOOGLE_API_KEY)`. -/
def llmServiceCallKeywords : List String := ["api_key"]

/-- `get_llm_service` (main.py lines 49-50): Python binds each keyword
argument to a parameter of the same name and raises `TypeError` when
none exists, so this factory raises on every call (`none`). -/
def get_llm_service : Option Unit :=
  if llmServiceCallKeywords.all (fun k => llmServiceInitParams.contains k)
  then some () else none

/-- The `/api/v1/search` handler together with its dependency wiring
(main.py lines 95-152 with the factories at lines 39-58): FastAPI
resolves the four `Depends` factories on every request, before the
handler body runs.  The two client factories and the
recommendation-service factory construct successfully (their calls
match their signatures) and are modelled by the oracle parameters, but
`get_llm_service` raises `TypeError` on every call — main.py line 50
passes `api_key` to `LLMService.__init__`, which has no such
parameter — so resolution fails first.  Past that gate, the handler
derives both queries, runs both searches (each already recovered to
`[]` by its client on failure), combines, and builds the response;
`none` models an exception escaping as a 500. -/
def search_products_endpoint (req : ProductQueryRequest)
    (cypherGen termsGen : Except Unit String)
    (semOutcome graphOutcome : Except Unit (List Ref))
    (scorer : Dict → String → Except Unit ℚ) (heap : Heap) :
    Option ProductQueryResponse :=
  match get_llm_service with
  | none => none
  | some _ =>
      let cypher_query := generate_cypher cypherGen req.query
      let search_terms := generate_search_terms termsGen req.query
      let semantic_results := semanticClientSearch semOutcome
      let graph_results := graphClientSearch graphOutcome
      match combine_results defaultConfig scorer heap semantic_results
          graph_results req.query req.limit with
      | none => none
      | some (recs, _) =>
          some { query := req.query, cypher_query := cypher_query,
                 search_terms := search_terms,
                 semantic_results_count := semantic_results.length,
                 graph_results_count := graph_results.length,
                 recommendations := recs }

/-!
## Theorems
-/

/-- C1: under the default configuration the combined score is
`min(0.5·s + 0.5·g + 0.05, 1)` for dual-sourced candidates, `s` for
semantic-only, `g` for graph-only (both within the data model's [0,1]
score range), `0` for an empty source set; and the two concrete
instances `s=0.8, g=0.6 ↦ 0.75` and `s=1, g=1 ↦ 1` hold. -/
theorem combined_score_spec (s g : ℚ) (hs : s ≤ 1) (hg : g ≤ 1) :
    calculate_combined_score defaultConfig s g ⟨true, true⟩
        = min (1/2 * s + 1/2 * g + 1/20) 1
    ∧ calculate_combined_score defaultConfig s g ⟨true, false⟩ = s
    ∧ calculate_combined_score defaultConfig s g ⟨false, true⟩ = g
    ∧ calculate_combined_score defaultConfig s g ⟨false, false⟩ = 0
    ∧ calculate_combined_score defaultConfig (8/10) (6/10) ⟨true, true⟩ = 75/100
    ∧ calculate_combined_score defaultConfig 1 1 ⟨true, true⟩ = 1 := by
  refine ⟨?_, ?_, ?_, ?_, by norm_num [calculate_combined_score, defaultConfig],
    by norm_num [calculate_combined_score, defaultConfig]⟩
  · simp only [calculate_combined_score, defaultConfig]
    norm_num [add_assoc]
  · simp only [calculate_combined_score, defaultConfig]
    norm_num [min_eq_left, hs]
  · simp only [calculate_combined_score, defaultConfig]
    norm_num [min_eq_left, hg]
  · simp [calculate_combined_score, defaultConfig]

/-- Witness for `combined_score_spec` at s = 0.9, g = 0.4. -/
theorem combined_score_spec_witness :
    calculate_combined_score defaultConfig (9/10) (4/10) ⟨true, false⟩ = 9/10 :=
  (combined_score_spec (9/10) (4/10) (by norm_num) (by norm_num)).2.1

/-- C9: with no generation client configured, both query derivations
are independent of the backend environment — repeated calls agree
byte-for-byte — and equal the pure fallbacks: the canonical full-text
query, resp. the original text unmodified. -/
theorem translator_no_client_deterministic (text : String)
    (b₁ b₂ : String → Except Unit String) :
    cg_generate_cypher false b₁ text = cg_generate_cypher false b₂ text
    ∧ cg_generate_search_query_for_semantic false b₁ text
        = cg_generate_search_query_for_semantic false b₂ text
    ∧ cg_generate_cypher false b₁ text = fallbackQuery text
    ∧ cg_generate_search_query_for_semantic false b₁ text = text := by
  simp [cg_generate_cypher, cg_generate_search_query_for_semantic]

/-- C6 counterexample: `generate_cypher` can return the empty string —
an empty generation (post-strip) is returned as-is, and so is a bare
markdown fence whose sanitization is empty; neither is replaced by the
fallback query. -/
theorem generate_cypher_empty_counterexample :
    generate_cypher (.ok "") "red shoes" = ""
    ∧ generate_cypher (.ok ("\x60\x60\x60cypher\n\x60\x60\x60")) "red shoes" = ""
    ∧ fallbackQuery "red shoes" ≠ "" := by
  refine ⟨rfl, rfl, ?_⟩
  intro h
  have := congrArg String.length h
  exact absurd this (by decide)

/-- C6 amended: `generate_cypher` returns the deterministic non-empty
full-text fallback exactly when the generation call raises; a
successful response has markdown fences stripped (first/last fence
lines dropped); but an empty or empty-after-sanitization response is
returned as-is rather than treated as a failure. -/
theorem generate_cypher_fallback_spec (q s : String)
    (hnf : pyStartsWith s ("\x60\x60\x60") = false) :
    generate_cypher (.error ()) q = fallbackQuery q
    ∧ fallbackQuery q ≠ ""
    ∧ generate_cypher (.ok s) q = s
    ∧ generate_cypher (.ok ("\x60\x60\x60cypher\nCALL n\n\x60\x60\x60")) q = "CALL n"
    ∧ generate_cypher (.ok "") q = "" := by
  refine ⟨rfl, ?_, ?_, rfl, rfl⟩
  · intro h
    have := congrArg String.length h
    simp [fallbackQuery, String.length_append] at this
    exact absurd this.2 (by decide)
  · simp [generate_cypher, sanitizeCypher, hnf]

/-- Witness for `generate_cypher_fallback_spec` at a fence-free
response. -/
theorem generate_cypher_fallback_spec_witness :
    pyStartsWith "CALL n" ("\x60\x60\x60") = false
    ∧ generate_cypher (.error ()) "red shoes" = fallbackQuery "red shoes" :=
  ⟨rfl, (generate_cypher_fallback_spec "red shoes" "CALL n" rfl).1⟩

/-- C7 counterexample: the request model accepts an empty query string
together with a non-positive limit — validation succeeds instead of
rejecting the request. -/
theorem validation_accepts_empty_query_counterexample :
    validateProductQueryRequest [("query", .str ""), ("limit", .num 0)]
      = .ok { query := "", limit := 0, min_semantic_score := 3/10 } := rfl

/-- C7 amended: caller input is validated only structurally — a
well-typed body is accepted whatever the query string (including empty)
and whatever the integer limit (including non-positive ones); only a
missing or wrongly-typed field is rejected with an explanatory
message. -/
theorem validation_structural_only (s : String) (n : ℤ) :
    validateProductQueryRequest [("query", .str s), ("limit", .num n)]
      = .ok { query := s, limit := n, min_semantic_score := 3/10 }
    ∧ validateProductQueryRequest [] = .error "query: Field required"
    ∧ validateProductQueryRequest [("query", .num 1)]
        = .error "query: Input should be a valid string" := by
  refine ⟨?_, rfl, rfl⟩
  simp [validateProductQueryRequest, Dict.lookup, Rat.den_intCast, Rat.num_intCast,
    Bind.bind, Except.bind, Pure.pure, Except.pure]

/-- C3: relevance scoring is total — the result is always in [0,1]; a
raised/timed-out call yields exactly 0.5; a response without a
decimal-number-shaped substring yields exactly 0.5; otherwise the first
matched number is clamped into [0,1]; and a scoring outcome never drops
a candidate: the scored list has exactly one element per aggregated
candidate, whatever the scorer does. -/
theorem score_relevance_total_spec (out : Except Unit String) :
    (0 ≤ score_relevance out ∧ score_relevance out ≤ 1)
    ∧ score_relevance (.error ()) = 1/2
    ∧ (∀ s, extractNumber s.toList = none → score_relevance (.ok s) = 1/2)
    ∧ (∀ s ip fp, extractNumber s.toList = some (ip, fp) →
        score_relevance (.ok s) = max 0 (min 1 (parseNumber ip fp)))
    ∧ (∀ cfg scorer q heap ps sp,
        scoreProducts cfg scorer q heap ps = some sp → sp.length = ps.length) := by
  refine ⟨?_, by norm_num [score_relevance], ?_, ?_, ?_⟩
  · cases out with
    | error u => norm_num [score_relevance]
    | ok s =>
        cases h : extractNumber s.data with
        | none => norm_num [score_relevance, String.toList, h]
        | some p =>
            obtain ⟨ip, fp⟩ := p
            simp only [score_relevance, String.toList, h]
            exact ⟨le_max_left 0 _, max_le (by norm_num) (min_le_left 1 _)⟩
  · intro s h
    rw [String.toList] at h
    simp [score_relevance, h]
  · intro s ip fp h
    rw [String.toList] at h
    simp [score_relevance, h]
  · intro cfg scorer q heap ps
    induction ps with
    | nil =>
        intro sp h
        simp [scoreProducts] at h
        simp [← h]
    | cons kv rest ih =>
        intro sp h
        obtain ⟨pid, e⟩ := kv
        simp only [scoreProducts] at h
        cases hpf : pyFloat e.semantic_score with
        | none => rw [hpf] at h; simp at h
        | some s =>
            rw [hpf] at h
            cases ht : scoreProducts cfg scorer q heap rest with
            | none => rw [ht] at h; simp at h
            | some tail =>
                rw [ht] at h
                simp only [Option.some.injEq] at h
                subst h
                simp [ih tail ht]

/-- Witness for `score_relevance_total_spec`: a response with prose
around the number parses to the clamped 0.85, and scoring a singleton
candidate list with an always-failing scorer keeps the candidate. -/
theorem score_relevance_total_spec_witness :
    score_relevance (.ok "Score: 0.85") = max 0 (min 1 (parseNumber ['0'] ['8', '5'])) :=
  ((score_relevance_total_spec (.ok "Score: 0.85")).2.2.2.1 "Score: 0.85"
    ['0'] ['8', '5'] rfl)

theorem lookup_setKey_self (d : Dict) (k : String) (w : Value) :
    (d.setKey k w).lookup k = some w := by
  induction d with
  | nil => simp [Dict.setKey, Dict.lookup]
  | cons kv rest ih =>
      obtain ⟨k', v'⟩ := kv
      by_cases h : k' = k
      · simp [Dict.setKey, Dict.lookup, h]
      · simp [Dict.setKey, Dict.lookup, h, ih]

theorem lookup_setKey_ne (d : Dict) (k k' : String) (w : Value) (h : k' ≠ k) :
    (d.setKey k' w).lookup k = d.lookup k := by
  induction d with
  | nil => simp [Dict.setKey, Dict.lookup, h]
  | cons kv rest ih =>
      obtain ⟨k0, v0⟩ := kv
      by_cases h0 : k0 = k'
      · subst h0
        simp [Dict.setKey, Dict.lookup, h]
      · by_cases h1 : k0 = k
        · simp [Dict.setKey, Dict.lookup, h0, h1, Ne.symm h]
        · simp [Dict.setKey, Dict.lookup, h0, h1, ih]

/-- A successful lookup means the key occurs in the dictionary. -/
theorem mem_keys_of_lookup_some (d : Dict) (k : String) (u : Value)
    (h : d.lookup k = some u) : k ∈ d.map Prod.fst := by
  induction d with
  | nil => simp [Dict.lookup] at h
  | cons kv rest ih =>
      obtain ⟨k1, w1⟩ := kv
      by_cases h1 : k1 = k
      · simp [h1]
      · simp only [Dict.lookup] at h
        rw [if_neg h1] at h
        simp [ih h]

theorem updateWith_cons (d : Dict) (x : String × Value) (rest : Dict) :
    d.updateWith (x :: rest) = (d.setKey x.1 x.2).updateWith rest := rfl

/-- A key absent from the overlay keeps its base binding. -/
theorem lookup_updateWith_of_none (v g : Dict) (k : String)
    (h : g.lookup k = none) : (v.updateWith g).lookup k = v.lookup k := by
  induction g generalizing v with
  | nil => rfl
  | cons kv rest ih =>
      obtain ⟨k0, w0⟩ := kv
      by_cases h0 : k0 = k
      · simp [Dict.lookup, h0] at h
      · simp only [Dict.lookup] at h
        rw [if_neg h0] at h
        rw [updateWith_cons]
        rw [ih _ h]
        exact lookup_setKey_ne v k k0 w0 h0

/-- A key present in a duplicate-free overlay ends with the overlay's
value — existing base bindings are overwritten. -/
theorem lookup_updateWith_of_some (v g : Dict) (k : String) (w : Value)
    (h : g.lookup k = some w) (hnd : (g.map Prod.fst).Nodup) :
    (v.updateWith g).lookup k = some w := by
  induction g generalizing v with
  | nil => simp [Dict.lookup] at h
  | cons kv rest ih =>
      obtain ⟨k0, w0⟩ := kv
      simp only [List.map_cons, List.nodup_cons] at hnd
      by_cases h0 : k0 = k
      · subst h0
        have hw : w0 = w := by simpa [Dict.lookup] using h
        subst hw
        rw [updateWith_cons]
        have hrest : Dict.lookup rest k0 = none := by
          cases hr : Dict.lookup rest k0 with
          | none => rfl
          | some u => exact absurd (mem_keys_of_lookup_some rest k0 u hr) hnd.1
        rw [lookup_updateWith_of_none _ _ _ hrest]
        exact lookup_setKey_self v k0 w0
      · simp only [Dict.lookup] at h
        rw [if_neg h0] at h
        rw [updateWith_cons]
        exact ih (v.setKey k0 w0) h hnd.2

theorem pyTake_all {α : Type} (n : ℤ) (l : List α) (h : (l.length : ℤ) ≤ n) :
    pyTake n l = l := by
  unfold pyTake
  rw [if_neg (by omega)]
  exact List.take_of_length_le (by omega)

/-- One vector result and one graph result sharing a truthy string id:
the aggregate is a single dual-sourced candidate whose data reference
is the vector dictionary, which has been updated in place with the
graph dictionary's bindings. -/
theorem aggregate_single_pair (v g : Dict) (i : String)
    (hvi : pidOfSemantic v = .str i) (hne : i ≠ "")
    (hgi : pidOfGraph g = .str i) :
    aggregate [v, g] [0] [1] =
      ([(.str i,
         { semantic_score := v.getd "score" (.num 0), graph_score := 0,
           data := some 0,
           sources := { semantic := true, graph := true } })],
       [v.updateWith g, g]) := by
  have hi : i.isEmpty = false := by
    cases hemp : i.isEmpty with
    | false => rfl
    | true => exact absurd ((String.isEmpty_iff i).mp hemp) hne
  simp [aggregate, processSemantic, processGraph, Heap.read, Heap.write,
        hvi, hgi, Value.truthy, hi, lookupEntry, setEntry, Entry.fresh,
        Value.keyEq, List.getD]

/-- `combine_results` on the single-overlap pair: full characterization
of the output record and of the final heap. -/
theorem combine_single_pair (cfg : FusionConfig)
    (scorer : Dict → String → Except Unit ℚ) (v g : Dict) (i q : String) (s : ℚ)
    (hvi : pidOfSemantic v = .str i) (hne : i ≠ "")
    (hgi : pidOfGraph g = .str i)
    (hs : pyFloat (v.getd "score" (.num 0)) = some s) :
    ∃ gval : ℚ,
      combine_results cfg scorer [v, g] [0] [1] q 10 =
        some ([{ product_id := .str i,
                 name := (v.updateWith g).getd "name" (.str ""),
                 brand := (v.updateWith g).getd "brand" (.str ""),
                 price := (v.updateWith g).getd "price" (.num 0),
                 semantic_score := round4 s,
                 graph_score := round4 gval,
                 combined_score :=
                   round4 (calculate_combined_score cfg s gval ⟨true, true⟩),
                 description := (v.updateWith g).getd "description" (.str ""),
                 color := (v.updateWith g).getd "color" (.str ""),
                 category := (v.updateWith g).getd "category" .null,
                 sources := ["semantic", "graph"] }],
              [v.updateWith g, g]) := by
  refine ⟨match scorer (v.updateWith g) q with | .ok q' => q' | .error _ => 1/2, ?_⟩
  have hagg := aggregate_single_pair v g i hvi hne hgi
  have htake : ∀ x : ScoredProduct, pyTake 10 [x] = [x] := fun x =>
    pyTake_all 10 [x] (by simp)
  simp [combine_results, hagg, scoreProducts, hs, Heap.read, htake,
        List.mergeSort_singleton, mapSome, finalizeItem, pyRound4, Sources.toList]

/-- C2 counterexample: vector result `{product_id:"p1", score:0.77,
name:"X", category:null}` merged with graph result `{id:"p1", name:"Y",
category:"Shoes"}` yields name "Y": the graph value overwrites the
already-populated non-empty vector field, so the overlay is not
non-clobbering. -/
theorem merge_overlay_clobbers_counterexample :
    (Option.map (fun p => p.1.map FinalResult.name)
      (combine_results defaultConfig (fun _ _ => .error ())
        [[("product_id", .str "p1"), ("score", .num (77/100)),
          ("name", .str "X"), ("category", .null)],
         [("id", .str "p1"), ("name", .str "Y"), ("category", .str "Shoes")]]
        [0] [1] "red shoes" 10))
      = some [Value.str "Y"]
    ∧ Value.str "Y" ≠ Value.str "X" := by
  obtain ⟨gval, hc⟩ := combine_single_pair defaultConfig (fun _ _ => .error ())
    [("product_id", .str "p1"), ("score", .num (77/100)),
     ("name", .str "X"), ("category", .null)]
    [("id", .str "p1"), ("name", .str "Y"), ("category", .str "Shoes")]
    "p1" "red shoes" (77/100) rfl (by decide) rfl rfl
  rw [hc]
  refine ⟨?_, by simp⟩
  simp [Dict.updateWith, Dict.setKey, Dict.getd, Dict.lookup]

/-- C2 amended: a product id appearing in both lists yields one
dual-sourced candidate whose attributes follow a `dict.update` overlay
in the graph direction: every field present in the (duplicate-free)
graph result takes the graph's value — overwriting even non-empty
vector values — and only fields absent from the graph result keep the
vector snapshot's values.  The spec's example still holds because its
graph record carries no `name` field. -/
theorem merge_update_overlay (cfg : FusionConfig)
    (scorer : Dict → String → Except Unit ℚ) (v g : Dict) (i q : String) (s : ℚ)
    (hvi : pidOfSemantic v = .str i) (hne : i ≠ "")
    (hgi : pidOfGraph g = .str i)
    (hs : pyFloat (v.getd "score" (.num 0)) = some s) :
    ∃ r heap₂,
      combine_results cfg scorer [v, g] [0] [1] q 10 = some ([r], heap₂)
      ∧ r.name = (v.updateWith g).getd "name" (.str "")
      ∧ r.category = (v.updateWith g).getd "category" .null
      ∧ r.sources = ["semantic", "graph"]
      ∧ (∀ k, g.lookup k = none → (v.updateWith g).lookup k = v.lookup k)
      ∧ (∀ k w, g.lookup k = some w → (g.map Prod.fst).Nodup →
          (v.updateWith g).lookup k = some w) := by
  obtain ⟨gval, hc⟩ := combine_single_pair cfg scorer v g i q s hvi hne hgi hs
  exact ⟨_, _, hc, rfl, rfl, rfl,
    fun k hk => lookup_updateWith_of_none v g k hk,
    fun k w hk hnd => lookup_updateWith_of_some v g k w hk hnd⟩

/-- Witness for `merge_update_overlay` at the spec's aggregation
example (the graph record has no name field, so name "X" survives and
category is filled with "Shoes"). -/
theorem merge_update_overlay_witness :
    ∃ r heap₂,
      combine_results defaultConfig (fun _ _ => .error ())
        [[("product_id", Value.str "p1"), ("score", Value.num (77/100)),
          ("name", Value.str "X"), ("category", Value.null)],
         [("id", Value.str "p1"), ("category", Value.str "Shoes")]]
        [0] [1] "red shoes" 10 = some ([r], heap₂)
      ∧ r.name = (Dict.updateWith
          [("product_id", Value.str "p1"), ("score", Value.num (77/100)),
           ("name", Value.str "X"), ("category", Value.null)]
          [("id", Value.str "p1"), ("category", Value.str "Shoes")]).getd "name" (Value.str "")
      ∧ r.category = (Dict.updateWith
          [("product_id", Value.str "p1"), ("score", Value.num (77/100)),
           ("name", Value.str "X"), ("category", Value.null)]
          [("id", Value.str "p1"), ("category", Value.str "Shoes")]).getd "category" Value.null
      ∧ r.sources = ["semantic", "graph"]
      ∧ (∀ k, Dict.lookup [("id", Value.str "p1"), ("category", Value.str "Shoes")] k = none →
          (Dict.updateWith
            [("product_id", Value.str "p1"), ("score", Value.num (77/100)),
             ("name", Value.str "X"), ("category", Value.null)]
            [("id", Value.str "p1"), ("category", Value.str "Shoes")]).lookup k =
          Dict.lookup [("product_id", Value.str "p1"), ("score", Value.num (77/100)),
             ("name", Value.str "X"), ("category", Value.null)] k)
      ∧ (∀ k w, Dict.lookup [("id", Value.str "p1"), ("category", Value.str "Shoes")] k = some w →
          (List.map Prod.fst [("id", Value.str "p1"), ("category", Value.str "Shoes")]).Nodup →
          (Dict.updateWith
            [("product_id", Value.str "p1"), ("score", Value.num (77/100)),
             ("name", Value.str "X"), ("category", Value.null)]
            [("id", Value.str "p1"), ("category", Value.str "Shoes")]).lookup k = some w) :=
  merge_update_overlay defaultConfig (fun _ _ => .error ())
    [("product_id", Value.str "p1"), ("score", Value.num (77/100)),
     ("name", Value.str "X"), ("category", Value.null)]
    [("id", Value.str "p1"), ("category", Value.str "Shoes")]
    "p1" "red shoes" (77/100) rfl (by decide) rfl rfl

/-- C10: `combine_results` mutates its semantic argument in place: for
an id in both lists, the caller's vector dictionary object (heap cell
referenced from the semantic list) holds `dict.update(vector, graph)`
after the call — graph fields overwrite existing keys — so it is left
changed whenever the update differs; and the candidate's `data` field
is the very reference to that vector dictionary, not a copy. -/
theorem combine_results_mutates_semantic_input (cfg : FusionConfig)
    (scorer : Dict → String → Except Unit ℚ) (v g : Dict) (i q : String) (s : ℚ)
    (hvi : pidOfSemantic v = .str i) (hne : i ≠ "")
    (hgi : pidOfGraph g = .str i)
    (hs : pyFloat (v.getd "score" (.num 0)) = some s) :
    ∃ res, combine_results cfg scorer [v, g] [0] [1] q 10 = some res
      ∧ Heap.read res.2 0 = v.updateWith g
      ∧ (v.updateWith g ≠ v → res.2 ≠ [v, g])
      ∧ ∃ e, (aggregate [v, g] [0] [1]).1 = [(.str i, e)] ∧ e.data = some 0 := by
  obtain ⟨gval, hc⟩ := combine_single_pair cfg scorer v g i q s hvi hne hgi hs
  refine ⟨_, hc, by simp [Heap.read], ?_, ?_⟩
  · intro hchanged heq
    apply hchanged
    have := congrArg (fun l => Heap.read l 0) heq
    simpa [Heap.read] using this
  · exact ⟨{ semantic_score := v.getd "score" (.num 0), graph_score := 0,
             data := some 0, sources := { semantic := true, graph := true } },
           by rw [aggregate_single_pair v g i hvi hne hgi], rfl⟩

/-- Witness for `combine_results_mutates_semantic_input` at inputs
where the update does change the caller's object. -/
theorem combine_results_mutates_semantic_input_witness :
    ∃ res, combine_results defaultConfig (fun _ _ => .error ())
        [[("product_id", Value.str "p1"), ("score", Value.num (77/100)),
          ("name", Value.str "X"), ("category", Value.null)],
         [("id", Value.str "p1"), ("name", Value.str "Y"), ("category", Value.str "Shoes")]]
        [0] [1] "red shoes" 10 = some res
      ∧ Heap.read res.2 0 = Dict.updateWith
          [("product_id", Value.str "p1"), ("score", Value.num (77/100)),
           ("name", Value.str "X"), ("category", Value.null)]
          [("id", Value.str "p1"), ("name", Value.str "Y"), ("category", Value.str "Shoes")]
      ∧ (Dict.updateWith
          [("product_id", Value.str "p1"), ("score", Value.num (77/100)),
           ("name", Value.str "X"), ("category", Value.null)]
          [("id", Value.str "p1"), ("name", Value.str "Y"), ("category", Value.str "Shoes")] ≠
          [("product_id", Value.str "p1"), ("score", Value.num (77/100)),
           ("name", Value.str "X"), ("category", Value.null)] →
          res.2 ≠ [[("product_id", Value.str "p1"), ("score", Value.num (77/100)),
                    ("name", Value.str "X"), ("category", Value.null)],
                   [("id", Value.str "p1"), ("name", Value.str "Y"), ("category", Value.str "Shoes")]])
      ∧ ∃ e, (aggregate
          [[("product_id", Value.str "p1"), ("score", Value.num (77/100)),
            ("name", Value.str "X"), ("category", Value.null)],
           [("id", Value.str "p1"), ("name", Value.str "Y"), ("category", Value.str "Shoes")]]
          [0] [1]).1 = [(Value.str "p1", e)] ∧ e.data = some 0 :=
  combine_results_mutates_semantic_input defaultConfig (fun _ _ => .error ())
    [("product_id", Value.str "p1"), ("score", Value.num (77/100)),
     ("name", Value.str "X"), ("category", Value.null)]
    [("id", Value.str "p1"), ("name", Value.str "Y"), ("category", Value.str "Shoes")]
    "p1" "red shoes" (77/100) rfl (by decide) rfl rfl

theorem pyTake_nil {α : Type} (n : ℤ) : pyTake n ([] : List α) = [] := by
  unfold pyTake
  split <;> simp

theorem mem_pyTake {α : Type} (n : ℤ) (l : List α) (a : α) (h : a ∈ pyTake n l) :
    a ∈ l := by
  unfold pyTake at h
  split at h
  · exact List.take_subset _ _ h
  · exact List.take_subset _ _ h

/-- `combine_results` with two empty result lists: empty output, heap
untouched, no failure. -/
theorem combine_results_empty (cfg : FusionConfig)
    (scorer : Dict → String → Except Unit ℚ) (heap : Heap) (q : String) (limit : ℤ) :
    combine_results cfg scorer heap [] [] q limit = some ([], heap) := by
  simp [combine_results, aggregate, processSemantic, processGraph, scoreProducts,
        List.mergeSort_nil, pyTake_nil, mapSome]

theorem mem_setEntry (ps : ProductScores) (pid : Value) (e : Entry) :
    ∀ kv ∈ setEntry ps pid e, kv.2 = e ∨ kv ∈ ps := by
  induction ps with
  | nil =>
      intro kv h
      simp [setEntry] at h
      simp [h]
  | cons kv0 rest ih =>
      intro kv h
      obtain ⟨k, e'⟩ := kv0
      simp only [setEntry] at h
      by_cases hk : k.keyEq pid = true
      · rw [if_pos hk] at h
        rcases List.mem_cons.mp h with h | h
        · simp [h]
        · simp [h]
      · rw [if_neg hk] at h
        rcases List.mem_cons.mp h with h | h
        · simp [h]
        · rcases ih kv h with h' | h'
          · exact Or.inl h'
          · exact Or.inr (List.mem_cons_of_mem _ h')

theorem lookupEntry_mem (ps : ProductScores) (pid : Value) (e : Entry)
    (h : lookupEntry ps pid = some e) : ∃ k, (k, e) ∈ ps := by
  induction ps with
  | nil => simp [lookupEntry] at h
  | cons kv rest ih =>
      obtain ⟨k, e'⟩ := kv
      simp only [lookupEntry] at h
      by_cases hk : k.keyEq pid = true
      · rw [if_pos hk] at h
        simp only [Option.some.injEq] at h
        exact ⟨k, by simp [h]⟩
      · rw [if_neg hk] at h
        obtain ⟨k', hk'⟩ := ih h
        exact ⟨k', List.mem_cons_of_mem _ hk'⟩

/-- Graph-phase invariant: starting from entries that carry a numeric-0
semantic score and a set data reference (vacuously from the empty
accumulator), every produced entry does too. -/
theorem processGraph_inv (refs : List Ref) :
    ∀ (heap : Heap) (ps : ProductScores),
    (∀ kv ∈ ps, kv.2.semantic_score = Value.num 0 ∧ kv.2.data.isSome = true) →
    ∀ kv ∈ (processGraph heap ps refs).1,
      kv.2.semantic_score = Value.num 0 ∧ kv.2.data.isSome = true := by
  induction refs with
  | nil =>
      intro heap ps hps kv h
      simp only [processGraph] at h
      exact hps kv h
  | cons r rest ih =>
      intro heap ps hps kv h
      simp only [processGraph] at h
      by_cases ht : (pidOfGraph (heap.read r)).truthy = true
      · rw [if_pos ht] at h
        cases hl : lookupEntry ps (pidOfGraph (heap.read r)) with
        | none =>
            rw [hl] at h
            simp only [Option.getD_none, Entry.fresh] at h
            refine ih _ _ ?_ kv h
            intro kv' h'
            rcases mem_setEntry _ _ _ kv' h' with h'' | h''
            · simp [h'']
            · exact hps kv' h''
        | some e0 =>
            rw [hl] at h
            simp only [Option.getD_some] at h
            obtain ⟨k0, hk0⟩ := lookupEntry_mem _ _ _ hl
            obtain ⟨hs0, hd0⟩ := hps (k0, e0) hk0
            cases hdr : e0.data with
            | none => rw [hdr] at hd0; simp at hd0
            | some dr =>
                rw [hdr] at h
                refine ih _ _ ?_ kv h
                intro kv' h'
                rcases mem_setEntry _ _ _ kv' h' with h'' | h''
                · rw [h'']
                  exact ⟨hs0, rfl⟩
                · exact hps kv' h''
      · rw [if_neg ht] at h
        exact ih _ _ hps kv h

/-- Scoring is total on an accumulator whose stored semantic scores all
convert, and each scored item inherits an entry's stored score and data
reference. -/
theorem scoreProducts_total (cfg : FusionConfig)
    (scorer : Dict → String → Except Unit ℚ) (q : String) (heap : Heap)
    (ps : ProductScores)
    (h : ∀ kv ∈ ps, (pyFloat kv.2.semantic_score).isSome = true) :
    ∃ sp, scoreProducts cfg scorer q heap ps = some sp
      ∧ ∀ it ∈ sp, ∃ kv, kv ∈ ps ∧ it.semantic_score = kv.2.semantic_score
          ∧ it.data = kv.2.data := by
  induction ps with
  | nil => exact ⟨[], rfl, by simp⟩
  | cons kv0 rest ih =>
      obtain ⟨pid, e⟩ := kv0
      obtain ⟨s, hs⟩ := Option.isSome_iff_exists.mp (h (pid, e) (by simp))
      obtain ⟨tail, htail, hmem⟩ := ih (fun kv hkv => h kv (List.mem_cons_of_mem _ hkv))
      cases hmain : scoreProducts cfg scorer q heap ((pid, e) :: rest) with
      | none => simp [scoreProducts, hs, htail] at hmain
      | some sp =>
          refine ⟨sp, rfl, ?_⟩
          simp only [scoreProducts, hs, htail, Option.some.injEq] at hmain
          subst hmain
          intro it hit
          rcases List.mem_cons.mp hit with h' | h'
          · exact ⟨(pid, e), by simp, by simp [h'], by simp [h']⟩
          · obtain ⟨kv, hkv, h1, h2⟩ := hmem it h'
            exact ⟨kv, List.mem_cons_of_mem _ hkv, h1, h2⟩

theorem mapSome_total {α β : Type} (f : α → Option β) (l : List α)
    (h : ∀ a ∈ l, (f a).isSome = true) : ∃ bs, mapSome f l = some bs := by
  induction l with
  | nil => exact ⟨[], rfl⟩
  | cons a rest ih =>
      obtain ⟨b, hb⟩ := Option.isSome_iff_exists.mp (h a (by simp))
      obtain ⟨bs, hbs⟩ := ih (fun a' ha' => h a' (List.mem_cons_of_mem _ ha'))
      exact ⟨b :: bs, by simp only [mapSome, hb, hbs]⟩

/-- With no semantic contribution, `combine_results` always succeeds,
whatever the graph list, the scorer, and the heap. -/
theorem combine_results_semantic_empty_ok (cfg : FusionConfig)
    (scorer : Dict → String → Except Unit ℚ) (heap : Heap)
    (graphs : List Ref) (q : String) (limit : ℤ) :
    ∃ res, combine_results cfg scorer heap [] graphs q limit = some res := by
  have hinv := processGraph_inv graphs heap [] (by simp)
  have hfloat : ∀ kv ∈ (processGraph heap [] graphs).1,
      (pyFloat kv.2.semantic_score).isSome = true := by
    intro kv hkv
    rw [(hinv kv hkv).1]
    rfl
  obtain ⟨sp, hsp, hspmem⟩ := scoreProducts_total cfg scorer q
    (processGraph heap [] graphs).2 (processGraph heap [] graphs).1 hfloat
  have hfin : ∀ it ∈ pyTake limit (sp.mergeSort scoredLE),
      (finalizeItem (processGraph heap [] graphs).2 it).isSome = true := by
    intro it hit
    have hit' : it ∈ sp := List.mem_mergeSort.mp (mem_pyTake _ _ _ hit)
    obtain ⟨kv, hkv, h1, h2⟩ := hspmem it hit'
    obtain ⟨hs0, hd0⟩ := hinv kv hkv
    obtain ⟨dr, hdr⟩ := Option.isSome_iff_exists.mp hd0
    simp [finalizeItem, h2, hdr, h1, hs0, pyRound4, pyFloat]
  obtain ⟨finals, hfinals⟩ := mapSome_total _ _ hfin
  refine ⟨(finals, (processGraph heap [] graphs).2), ?_⟩
  have hagg : aggregate heap [] graphs = processGraph heap [] graphs := rfl
  simp only [combine_results, hagg, hsp, hfinals]

/-- C8 (code bug): the recovery mechanism the claim describes is
implemented — both clients catch every exception and contribute the
empty list, combining two empty contributions yields an empty
recommendation list with zero counts and no failure, and a one-sided
semantic failure also cannot make the combine stage fail — but no
request can observe any of it: `get_llm_service` passes the keyword
`api_key` to `LLMService.__init__`, which has no such parameter, so
dependency resolution raises `TypeError` and every search request is
fatal, whatever the adapters return. -/
theorem search_request_always_fatal :
    get_llm_service = none
    ∧ (∀ req cg tg semOutcome graphOutcome scorer heap,
        search_products_endpoint req cg tg semOutcome graphOutcome scorer heap
          = none)
    ∧ semanticClientSearch (.error ()) = []
    ∧ graphClientSearch (.error ()) = []
    ∧ (∀ cfg scorer heap q limit,
        combine_results cfg scorer heap [] [] q limit = some ([], heap))
    ∧ (∀ cfg scorer heap graphs q limit, ∃ res,
        combine_results cfg scorer heap [] graphs q limit = some res) := by
  refine ⟨rfl, ?_, rfl, rfl, combine_results_empty, ?_⟩
  · intro req cg tg semOutcome graphOutcome scorer heap
    rfl
  · intro cfg scorer heap graphs q limit
    exact combine_results_semantic_empty_ok cfg scorer heap graphs q limit

theorem truthy_str (i : String) (h : i ≠ "") : (Value.str i).truthy = true := by
  simp only [Value.truthy, Bool.not_eq_true']
  cases hemp : i.isEmpty with
  | false => rfl
  | true => exact absurd ((String.isEmpty_iff i).mp hemp) h

theorem keyEq_str_iff (k : Value) (i : String) :
    k.keyEq (.str i) = true ↔ k = .str i := by
  cases k <;> simp [Value.keyEq]

theorem lookupEntry_isSome_str (ps : ProductScores) (i : String) :
    (lookupEntry ps (.str i)).isSome = true ↔ Value.str i ∈ ps.map Prod.fst := by
  induction ps with
  | nil => simp [lookupEntry]
  | cons kv rest ih =>
      obtain ⟨k, e⟩ := kv
      by_cases hk : k.keyEq (.str i) = true
      · have hksi : k = Value.str i := (keyEq_str_iff k i).mp hk
        subst hksi
        simp [lookupEntry, Value.keyEq]
      · have hne : ¬ k = Value.str i := fun h => hk ((keyEq_str_iff k i).mpr h)
        simp only [lookupEntry]
        rw [if_neg hk]
        simp [ih, hne, Ne.symm hne]

theorem setEntry_of_lookup_none (ps : ProductScores) (pid : Value) (e : Entry)
    (h : lookupEntry ps pid = none) : setEntry ps pid e = ps ++ [(pid, e)] := by
  induction ps with
  | nil => rfl
  | cons kv rest ih =>
      obtain ⟨k, e'⟩ := kv
      by_cases hk : k.keyEq pid = true
      · simp [lookupEntry, hk] at h
      · simp only [lookupEntry] at h
        rw [if_neg hk] at h
        simp [setEntry, hk, ih h]

theorem setEntry_keys_of_lookup_some (ps : ProductScores) (pid : Value) (e e0 : Entry)
    (h : lookupEntry ps pid = some e0) :
    (setEntry ps pid e).map Prod.fst = ps.map Prod.fst := by
  induction ps with
  | nil => simp [lookupEntry] at h
  | cons kv rest ih =>
      obtain ⟨k, e'⟩ := kv
      by_cases hk : k.keyEq pid = true
      · simp [setEntry, hk]
      · simp only [lookupEntry] at h
        rw [if_neg hk] at h
        simp [setEntry, hk, ih h]

theorem length_setEntry_le (ps : ProductScores) (pid : Value) (e : Entry) :
    (setEntry ps pid e).length ≤ ps.length + 1 := by
  induction ps with
  | nil => simp [setEntry]
  | cons kv rest ih =>
      obtain ⟨k, e'⟩ := kv
      by_cases hk : k.keyEq pid = true
      · simp [setEntry, hk]
      · simp only [setEntry]
        rw [if_neg hk]
        simp only [List.length_cons]
        omega

theorem Heap.read_write_ne (h : Heap) (r r' : Ref) (d : Dict) (hne : r' ≠ r) :
    (h.write r d).read r' = h.read r' := by
  simp only [Heap.read, Heap.write]
  rcases Nat.lt_or_ge r h.length with hr | hr
  · rcases Nat.lt_or_ge r' h.length with hr' | hr'
    · rw [List.getD_eq_getElem _ _ (by simpa using hr'),
          List.getD_eq_getElem _ _ hr']
      simp [List.getElem_set_ne (Ne.symm hne)]
    · rw [List.getD_eq_default _ _ (by simpa using hr'),
          List.getD_eq_default _ _ hr']
  · rw [List.set_eq_of_length_le hr]

theorem processSemantic_length_le (heap : Heap) :
    ∀ (refs : List Ref) (ps : ProductScores),
      (processSemantic heap ps refs).length ≤ ps.length + refs.length := by
  intro refs
  induction refs with
  | nil => intro ps; simp [processSemantic]
  | cons r rest ih =>
      intro ps
      simp only [processSemantic]
      by_cases ht : (pidOfSemantic (heap.read r)).truthy = true
      · rw [if_pos ht]
        calc (processSemantic heap (setEntry ps (pidOfSemantic (heap.read r)) _) rest).length
            ≤ (setEntry ps (pidOfSemantic (heap.read r)) _).length + rest.length := ih _
          _ ≤ ps.length + 1 + rest.length :=
              Nat.add_le_add_right (length_setEntry_le _ _ _) _
          _ = ps.length + (r :: rest).length := by simp only [List.length_cons]; omega
      · rw [if_neg ht]
        calc (processSemantic heap ps rest).length ≤ ps.length + rest.length := ih ps
          _ ≤ ps.length + (r :: rest).length := by simp
          
theorem processGraph_length_le :
    ∀ (refs : List Ref) (h : Heap) (ps : ProductScores),
      (processGraph h ps refs).1.length ≤ ps.length + refs.length := by
  intro refs
  induction refs with
  | nil => intro h ps; simp [processGraph]
  | cons r rest ih =>
      intro h ps
      simp only [processGraph]
      by_cases ht : (pidOfGraph (h.read r)).truthy = true
      · rw [if_pos ht]
        cases hd : ((lookupEntry ps (pidOfGraph (h.read r))).getD Entry.fresh).data with
        | none =>
            calc (processGraph h (setEntry ps (pidOfGraph (h.read r)) _) rest).1.length
                ≤ (setEntry ps (pidOfGraph (h.read r)) _).length + rest.length := ih _ _
              _ ≤ ps.length + 1 + rest.length :=
                  Nat.add_le_add_right (length_setEntry_le _ _ _) _
              _ = ps.length + (r :: rest).length := by simp only [List.length_cons]; omega
        | some dr =>
            calc (processGraph _ (setEntry ps (pidOfGraph (h.read r)) _) rest).1.length
                ≤ (setEntry ps (pidOfGraph (h.read r)) _).length + rest.length := ih _ _
              _ ≤ ps.length + 1 + rest.length :=
                  Nat.add_le_add_right (length_setEntry_le _ _ _) _
              _ = ps.length + (r :: rest).length := by simp only [List.length_cons]; omega
      · rw [if_neg ht]
        calc (processGraph h ps rest).1.length ≤ ps.length + rest.length := ih h ps
          _ ≤ ps.length + (r :: rest).length := by simp

theorem processSemantic_sources (heap : Heap) :
    ∀ (refs : List Ref) (ps : ProductScores),
      (∀ kv ∈ ps, kv.2.sources.semantic = true ∨ kv.2.sources.graph = true) →
      ∀ kv ∈ processSemantic heap ps refs,
        kv.2.sources.semantic = true ∨ kv.2.sources.graph = true := by
  intro refs
  induction refs with
  | nil => intro ps hps; simpa [processSemantic] using hps
  | cons r rest ih =>
      intro ps hps kv hkv
      simp only [processSemantic] at hkv
      by_cases ht : (pidOfSemantic (heap.read r)).truthy = true
      · rw [if_pos ht] at hkv
        refine ih _ ?_ kv hkv
        intro kv' h'
        rcases mem_setEntry _ _ _ kv' h' with h'' | h''
        · rw [h'']
          exact Or.inl rfl
        · exact hps kv' h''
      · rw [if_neg ht] at hkv
        exact ih _ hps kv hkv

theorem processGraph_sources :
    ∀ (refs : List Ref) (h : Heap) (ps : ProductScores),
      (∀ kv ∈ ps, kv.2.sources.semantic = true ∨ kv.2.sources.graph = true) →
      ∀ kv ∈ (processGraph h ps refs).1,
        kv.2.sources.semantic = true ∨ kv.2.sources.graph = true := by
  intro refs
  induction refs with
  | nil => intro h ps hps; simpa [processGraph] using hps
  | cons r rest ih =>
      intro h ps hps kv hkv
      simp only [processGraph] at hkv
      by_cases ht : (pidOfGraph (h.read r)).truthy = true
      · rw [if_pos ht] at hkv
        cases hd : ((lookupEntry ps (pidOfGraph (h.read r))).getD Entry.fresh).data with
        | none =>
            rw [hd] at hkv
            refine ih _ _ ?_ kv hkv
            intro kv' h'
            rcases mem_setEntry _ _ _ kv' h' with h'' | h''
            · rw [h'']
              exact Or.inr rfl
            · exact hps kv' h''
        | some dr =>
            rw [hd] at hkv
            refine ih _ _ ?_ kv hkv
            intro kv' h'
            rcases mem_setEntry _ _ _ kv' h' with h'' | h''
            · rw [h'']
              exact Or.inr rfl
            · exact hps kv' h''
      · rw [if_neg ht] at hkv
        exact ih _ _ hps kv hkv

theorem lookupEntry_isSome_false (ps : ProductScores) (i : String)
    (h : Value.str i ∉ ps.map Prod.fst) :
    (lookupEntry ps (.str i)).isSome = false := by
  cases hb : (lookupEntry ps (.str i)).isSome with
  | false => rfl
  | true => exact absurd ((lookupEntry_isSome_str ps i).mp hb) h

theorem lookupEntry_isSome_congr_str (ps ps' : ProductScores) (i : String)
    (hk : ps.map Prod.fst = ps'.map Prod.fst) :
    (lookupEntry ps (.str i)).isSome = (lookupEntry ps' (.str i)).isSome := by
  by_cases hmem : Value.str i ∈ ps'.map Prod.fst
  · rw [(lookupEntry_isSome_str ps' i).mpr hmem,
        (lookupEntry_isSome_str ps i).mpr (hk ▸ hmem)]
  · rw [lookupEntry_isSome_false ps' i hmem,
        lookupEntry_isSome_false ps i (hk ▸ hmem)]

theorem lookupEntry_append_isSome (ps : ProductScores) (pid : Value) (e : Entry)
    (i : String) (hne : Value.str i ≠ pid) :
    (lookupEntry (ps ++ [(pid, e)]) (.str i)).isSome
      = (lookupEntry ps (.str i)).isSome := by
  by_cases hmem : Value.str i ∈ ps.map Prod.fst
  · rw [(lookupEntry_isSome_str ps i).mpr hmem,
        (lookupEntry_isSome_str _ i).mpr (by simp [hmem])]
  · rw [lookupEntry_isSome_false ps i hmem,
        lookupEntry_isSome_false _ i (by simp [hmem, hne])]

/-- Semantic phase under well-formed inputs (truthy string ids, no
duplicate ids, ids fresh w.r.t. the accumulator): keys extend by the
результат ids in order, and every entry's data reference lies in `S`. -/
theorem processSemantic_spec (heap : Heap) :
    ∀ (refs : List Ref) (ps : ProductScores) (S : List Ref),
      (∀ r ∈ refs, ∃ i, pidOfSemantic (heap.read r) = .str i ∧ i ≠ "") →
      ((refs.map fun r => pidOfSemantic (heap.read r)).Nodup) →
      (∀ r ∈ refs, pidOfSemantic (heap.read r) ∉ ps.map Prod.fst) →
      (∀ r ∈ refs, r ∈ S) →
      (∀ kv ∈ ps, ∃ dr, kv.2.data = some dr ∧ dr ∈ S) →
      (processSemantic heap ps refs).map Prod.fst
          = ps.map Prod.fst ++ refs.map (fun r => pidOfSemantic (heap.read r))
      ∧ ∀ kv ∈ processSemantic heap ps refs,
          ∃ dr, kv.2.data = some dr ∧ dr ∈ S := by
  intro refs
  induction refs with
  | nil =>
      intro ps S _ _ _ _ hdata
      exact ⟨by simp [processSemantic], by simpa [processSemantic] using hdata⟩
  | cons r rest ih =>
      intro ps S htr hnd hdisj hsub hdata
      obtain ⟨i, hi, hine⟩ := htr r (by simp)
      have hnone : lookupEntry ps (pidOfSemantic (heap.read r)) = none := by
        rw [hi]
        rw [← Option.not_isSome_iff_eq_none]
        rw [lookupEntry_isSome_false ps i (hi ▸ hdisj r (by simp))]
        simp
      simp only [processSemantic]
      rw [if_pos (hi ▸ truthy_str i hine)]
      rw [hnone]
      simp only [Option.getD_none, Entry.fresh, Option.isNone_none, if_pos]
      rw [setEntry_of_lookup_none ps _ _ hnone]
      have hpidnotin : ∀ (e' : Entry), ∀ r' ∈ rest,
          pidOfSemantic (heap.read r') ∉
            (ps ++ [(pidOfSemantic (heap.read r), e')]).map Prod.fst := by
        intro e' r' hr'
        simp only [List.map_append, List.map_cons, List.map_nil, List.mem_append,
          List.mem_singleton]
        rintro (hmem | hmem)
        · exact hdisj r' (by simp [hr']) hmem
        · exact (List.nodup_cons.mp hnd).1 (List.mem_map.mpr ⟨r', hr', hmem⟩)
      obtain ⟨hkeys, hdat⟩ := ih (ps ++ [(pidOfSemantic (heap.read r),
          { semantic_score := (heap.read r).getd "score" (.num 0), graph_score := 0,
            data := some r,
            sources := { semantic := true, graph := false } })]) S
        (fun r' hr' => htr r' (by simp [hr']))
        ((List.nodup_cons.mp hnd).2)
        (hpidnotin _)
        (fun r' hr' => hsub r' (by simp [hr']))
        (by
          intro kv hkv
          rcases List.mem_append.mp hkv with hkv | hkv
          · exact hdata kv hkv
          · simp only [List.mem_singleton] at hkv
            exact ⟨r, by simp [hkv], hsub r (by simp)⟩)
      constructor
      · rw [hkeys]
        simp
      · exact hdat

theorem length_setEntry_of_lookup_some (ps : ProductScores) (pid : Value)
    (e e0 : Entry) (h : lookupEntry ps pid = some e0) :
    (setEntry ps pid e).length = ps.length := by
  have h1 := congrArg List.length (setEntry_keys_of_lookup_some ps pid e e0 h)
  simpa using h1

/-- Graph phase under well-formed inputs: distinct result objects with
truthy, pairwise-distinct string ids, reading a heap region that agrees
with the base heap, from an accumulator whose data references avoid the
graph objects: the candidate count grows by exactly the number of graph
ids missing from the accumulator. -/
theorem processGraph_count (heap : Heap) :
    ∀ (refs : List Ref) (h : Heap) (ps : ProductScores),
      refs.Nodup →
      (∀ r ∈ refs, ∃ i, pidOfGraph (heap.read r) = .str i ∧ i ≠ "") →
      ((refs.map fun r => pidOfGraph (heap.read r)).Nodup) →
      (∀ r ∈ refs, h.read r = heap.read r) →
      (∀ kv ∈ ps, ∃ dr, kv.2.data = some dr ∧ dr ∉ refs) →
      (processGraph h ps refs).1.length = ps.length +
        (refs.filter fun r =>
          !(lookupEntry ps (pidOfGraph (heap.read r))).isSome).length := by
  intro refs
  induction refs with
  | nil => intro h ps _ _ _ _ _; simp [processGraph]
  | cons r rest ih =>
      intro h ps hrnd htr hnd hagree hdata
      obtain ⟨i, hi, hine⟩ := htr r (by simp)
      have hread : h.read r = heap.read r := hagree r (by simp)
      obtain ⟨hrr, hrnd'⟩ := List.nodup_cons.mp hrnd
      obtain ⟨hpidr, hnd'⟩ := List.nodup_cons.mp hnd
      simp only [processGraph]
      rw [hread, hi, if_pos (truthy_str i hine)]
      cases hl : lookupEntry ps (Value.str i) with
      | some e0 =>
          obtain ⟨k0, hk0⟩ := lookupEntry_mem _ _ _ hl
          obtain ⟨dr, hdr, hdrnot⟩ := hdata (k0, e0) hk0
          have hdr' : e0.data = some dr := hdr
          simp only [Option.getD_some]
          rw [hdr']
          have hkeys := setEntry_keys_of_lookup_some ps (Value.str i)
            { semantic_score := e0.semantic_score, graph_score := e0.graph_score,
              data := some dr,
              sources := { semantic := e0.sources.semantic, graph := true } } e0 hl
          have ihres := ih (h.write dr ((h.read dr).updateWith (heap.read r)))
            (setEntry ps (Value.str i)
              { semantic_score := e0.semantic_score, graph_score := e0.graph_score,
                data := some dr,
                sources := { semantic := e0.sources.semantic, graph := true } })
            hrnd'
            (fun r' hr' => htr r' (by simp [hr']))
            hnd'
            (by
              intro r' hr'
              have hner : r' ≠ dr := by
                intro hcontra
                exact hdrnot (by simp [← hcontra, hr'])
              rw [Heap.read_write_ne h dr r' _ hner]
              exact hagree r' (by simp [hr']))
            (by
              intro kv hkv
              rcases mem_setEntry _ _ _ kv hkv with h'' | h''
              · refine ⟨dr, by rw [h''], ?_⟩
                intro hcontra
                exact hdrnot (by simp [hcontra])
              · obtain ⟨dr', hdr'', hnot⟩ := hdata kv h''
                exact ⟨dr', hdr'', fun hc => hnot (by simp [hc])⟩)
          rw [ihres]
          have hlen := length_setEntry_of_lookup_some ps (Value.str i)
            { semantic_score := e0.semantic_score, graph_score := e0.graph_score,
              data := some dr,
              sources := { semantic := e0.sources.semantic, graph := true } } e0 hl
          rw [hlen]
          have hfc : (rest.filter fun r' =>
              !(lookupEntry (setEntry ps (Value.str i)
                { semantic_score := e0.semantic_score, graph_score := e0.graph_score,
                  data := some dr,
                  sources := { semantic := e0.sources.semantic, graph := true } })
                (pidOfGraph (heap.read r'))).isSome)
              = rest.filter fun r' =>
              !(lookupEntry ps (pidOfGraph (heap.read r'))).isSome := by
            refine List.filter_congr ?_
            intro r' hr'
            obtain ⟨i', hi', _⟩ := htr r' (by simp [hr'])
            rw [hi']
            exact congrArg Bool.not (lookupEntry_isSome_congr_str _ _ i' hkeys)
          rw [hfc]
          have hnotc : (List.filter (fun r' =>
              !(lookupEntry ps (pidOfGraph (heap.read r'))).isSome) (r :: rest))
              = rest.filter fun r' =>
                !(lookupEntry ps (pidOfGraph (heap.read r'))).isSome := by
            rw [List.filter_cons]
            rw [if_neg (by rw [hi, hl]; simp)]
          rw [hnotc]
      | none =>
          simp only [Option.getD_none, Entry.fresh]
          rw [setEntry_of_lookup_none ps _ _ hl]
          have ihres := ih h
            (ps ++ [(Value.str i,
              { semantic_score := Value.num 0, graph_score := 0, data := some r,
                sources := { semantic := false, graph := true } })])
            hrnd'
            (fun r' hr' => htr r' (by simp [hr']))
            hnd'
            (fun r' hr' => hagree r' (by simp [hr']))
            (by
              intro kv hkv
              rcases List.mem_append.mp hkv with hkv | hkv
              · obtain ⟨dr', hdr'', hnot⟩ := hdata kv hkv
                exact ⟨dr', hdr'', fun hc => hnot (by simp [hc])⟩
              · simp only [List.mem_singleton] at hkv
                exact ⟨r, by rw [hkv], hrr⟩)
          rw [ihres]
          have hfc : (rest.filter fun r' =>
              !(lookupEntry (ps ++ [(Value.str i,
                { semantic_score := Value.num 0, graph_score := 0, data := some r,
                  sources := { semantic := false, graph := true } })])
                (pidOfGraph (heap.read r'))).isSome)
              = rest.filter fun r' =>
              !(lookupEntry ps (pidOfGraph (heap.read r'))).isSome := by
            refine List.filter_congr ?_
            intro r' hr'
            obtain ⟨i', hi', _⟩ := htr r' (by simp [hr'])
            rw [hi']
            refine congrArg Bool.not (lookupEntry_append_isSome ps _ _ i' ?_)
            intro hcontra
            refine hpidr (List.mem_map.mpr ⟨r', hr', ?_⟩)
            show pidOfGraph (heap.read r') = pidOfGraph (heap.read r)
            rw [hi', hi]
            exact hcontra
          rw [hfc]
          have hc : (List.filter (fun r' =>
              !(lookupEntry ps (pidOfGraph (heap.read r'))).isSome) (r :: rest))
              = r :: (rest.filter fun r' =>
                !(lookupEntry ps (pidOfGraph (heap.read r'))).isSome) := by
            rw [List.filter_cons]
            rw [if_pos (by rw [hi, hl]; simp)]
          rw [hc]
          simp only [List.length_append, List.length_cons, List.length_nil]
          omega

/-- C5 counterexample: two semantic results carrying the same id and no
graph results at all — no id occurs in both lists, yet the candidate
count is 1, not 2 + 0, so the claimed equality condition fails. -/
theorem candidate_count_counterexample :
    (aggregate [[("product_id", Value.str "a"), ("score", Value.num 1)],
                [("product_id", Value.str "a"), ("score", Value.num 1)]]
      [0, 1] []).1.length = 1
    ∧ (1 : ℕ) ≠ 2 + 0 := by
  constructor
  · rfl
  · decide

/-- C5 amended: the distinct-candidate count never exceeds
semantic_count + graph_count, and every candidate carries at least one
source tag (both unconditionally); the equality-iff-no-id-overlap
claim holds for well-formed inputs — distinct result objects whose ids
are truthy strings with no duplicates within either list — and the
counterexample shows it fails without those conditions. -/
theorem aggregate_count_spec (heap : Heap) (sems graphs : List Ref) :
    (aggregate heap sems graphs).1.length ≤ sems.length + graphs.length
    ∧ (∀ kv ∈ (aggregate heap sems graphs).1,
        kv.2.sources.semantic = true ∨ kv.2.sources.graph = true)
    ∧ ((sems ++ graphs).Nodup →
       (∀ r ∈ sems, ∃ i, pidOfSemantic (heap.read r) = .str i ∧ i ≠ "") →
       ((sems.map fun r => pidOfSemantic (heap.read r)).Nodup) →
       (∀ r ∈ graphs, ∃ i, pidOfGraph (heap.read r) = .str i ∧ i ≠ "") →
       ((graphs.map fun r => pidOfGraph (heap.read r)).Nodup) →
       ((aggregate heap sems graphs).1.length = sems.length + graphs.length
        ↔ ∀ r' ∈ graphs, ∀ r ∈ sems,
            pidOfGraph (heap.read r') ≠ pidOfSemantic (heap.read r))) := by
  refine ⟨?_, ?_, ?_⟩
  · have h1 := processGraph_length_le graphs heap (processSemantic heap [] sems)
    have h2 := processSemantic_length_le heap sems []
    simp only [aggregate]
    simp only [List.length_nil, Nat.zero_add] at h2
    omega
  · exact processGraph_sources graphs heap _
      (processSemantic_sources heap sems [] (by simp))
  · intro hrnd htrs hnds htrg hndg
    obtain ⟨hsnd, hgnd, hdisj⟩ := List.nodup_append.mp hrnd
    obtain ⟨hkeys1, hdata1⟩ := processSemantic_spec heap sems [] sems htrs hnds
      (by simp) (fun r hr => hr) (by simp)
    have hlen1 : (processSemantic heap [] sems).length = sems.length := by
      have := congrArg List.length hkeys1
      simpa using this
    have hcount := processGraph_count heap graphs heap (processSemantic heap [] sems)
      hgnd htrg hndg (fun r _ => rfl)
      (by
        intro kv hkv
        obtain ⟨dr, hdr, hdrin⟩ := hdata1 kv hkv
        exact ⟨dr, hdr, fun hc => hdisj hdrin hc⟩)
    simp only [aggregate]
    rw [hcount, hlen1]
    constructor
    · intro heq r' hr' r hr hcontra
      have hflen : (graphs.filter fun r =>
          !(lookupEntry (processSemantic heap [] sems)
            (pidOfGraph (heap.read r))).isSome).length = graphs.length := by omega
      have hfeq := (List.filter_sublist (l := graphs)).eq_of_length hflen
      have hall := List.filter_eq_self.mp hfeq r' hr'
      obtain ⟨i', hi', _⟩ := htrg r' hr'
      rw [hi'] at hall
      have hmem : Value.str i' ∈ (processSemantic heap [] sems).map Prod.fst := by
        rw [hkeys1]
        simp only [List.map_nil, List.nil_append]
        refine List.mem_map.mpr ⟨r, hr, ?_⟩
        show pidOfSemantic (heap.read r) = Value.str i'
        rw [← hcontra, hi']
      rw [(lookupEntry_isSome_str _ i').mpr hmem] at hall
      simp at hall
    · intro hnover
      have hall : ∀ r' ∈ graphs, (!(lookupEntry (processSemantic heap [] sems)
          (pidOfGraph (heap.read r'))).isSome) = true := by
        intro r' hr'
        obtain ⟨i', hi', _⟩ := htrg r' hr'
        rw [hi']
        rw [lookupEntry_isSome_false _ i' ?_]
        · rfl
        · rw [hkeys1]
          simp only [List.map_nil, List.nil_append]
          intro hmem
          obtain ⟨r, hr, hpid⟩ := List.mem_map.mp hmem
          exact hnover r' hr' r hr (by rw [hi', hpid])
      rw [List.filter_eq_self.mpr hall]

/-- Witness for `aggregate_count_spec`: one semantic and one graph
result with distinct ids — equality holds and the iff applies. -/
theorem aggregate_count_spec_witness :
    (aggregate [[("product_id", Value.str "a")], [("id", Value.str "b")]]
        [0] [1]).1.length = 1 + 1
      ↔ ∀ r' ∈ [1], ∀ r ∈ [0],
          pidOfGraph (Heap.read [[("product_id", Value.str "a")],
            [("id", Value.str "b")]] r')
          ≠ pidOfSemantic (Heap.read [[("product_id", Value.str "a")],
            [("id", Value.str "b")]] r) :=
  (aggregate_count_spec [[("product_id", Value.str "a")], [("id", Value.str "b")]]
    [0] [1]).2.2
    (by decide)
    (by
      intro r hr
      simp only [List.mem_singleton] at hr
      subst hr
      exact ⟨"a", rfl, by decide⟩)
    (by simp)
    (by
      intro r hr
      simp only [List.mem_singleton] at hr
      subst hr
      exact ⟨"b", rfl, by decide⟩)
    (by simp)

/-- Rounding half to even at four decimals is monotone. -/
theorem round4_mono {a b : ℚ} (h : a ≤ b) : round4 a ≤ round4 b := by
  simp only [round4]
  have h1 : a * 10000 ≤ b * 10000 :=
    mul_le_mul_of_nonneg_right h (by norm_num)
  have hf : ⌊a * 10000⌋ ≤ ⌊b * 10000⌋ := Int.floor_le_floor h1
  rw [div_le_div_iff_of_pos_right (by norm_num)]
  rw [Int.cast_le]
  have hfl : (⌊a * 10000⌋ : ℚ) ≤ a * 10000 := Int.floor_le _
  have hfl' : b * 10000 < ⌊b * 10000⌋ + 1 := Int.lt_floor_add_one _
  rcases eq_or_lt_of_le hf with heq | hlt
  · rw [heq]
    split_ifs <;> first | omega | linarith [h1, heq]
  · split_ifs <;> omega

theorem mapSome_forall₂ {α β : Type} (f : α → Option β) :
    ∀ (l : List α) (r : List β), mapSome f l = some r →
      List.Forall₂ (fun a b => f a = some b) l r := by
  intro l
  induction l with
  | nil =>
      intro r h
      simp only [mapSome, Option.some.injEq] at h
      rw [← h]
      exact List.Forall₂.nil
  | cons a rest ih =>
      intro r h
      simp only [mapSome] at h
      cases hfa : f a with
      | none => rw [hfa] at h; simp at h
      | some b =>
          rw [hfa] at h
          cases hrest : mapSome f rest with
          | none => rw [hrest] at h; simp at h
          | some bs =>
              rw [hrest] at h
              simp only [Option.some.injEq] at h
              rw [← h]
              exact List.Forall₂.cons hfa (ih bs hrest)

theorem finalizeItem_combined (h : Heap) (it : ScoredProduct) (fr : FinalResult)
    (hc : finalizeItem h it = some fr) :
    fr.combined_score = round4 it.combined_score := by
  simp only [finalizeItem] at hc
  cases hd : it.data with
  | none => rw [hd] at hc; simp at hc
  | some dr =>
      rw [hd] at hc
      cases hr : pyRound4 it.semantic_score with
      | none => rw [hr] at hc; simp at hc
      | some s =>
          rw [hr] at hc
          simp only [Option.some.injEq] at hc
          rw [← hc]

theorem forall₂_exists_left {α β : Type} {R : α → β → Prop} :
    ∀ {l : List α} {r : List β}, List.Forall₂ R l r →
      ∀ b ∈ r, ∃ a ∈ l, R a b := by
  intro l r hf
  induction hf with
  | nil => simp
  | cons hR hrest ih =>
      intro b hb
      rcases List.mem_cons.mp hb with hb | hb
      · exact ⟨_, by simp, hb ▸ hR⟩
      · obtain ⟨a, ha, hRa⟩ := ih b hb
        exact ⟨a, List.mem_cons_of_mem _ ha, hRa⟩

theorem pairwise_transfer {α β : Type} {R : α → β → Prop} {S : α → α → Prop}
    {T : β → β → Prop} :
    ∀ {l : List α} {r : List β}, List.Forall₂ R l r → l.Pairwise S →
      (∀ a a' b b', R a b → R a' b' → S a a' → T b b') → r.Pairwise T := by
  intro l r hf hp hcompat
  induction hf with
  | nil => exact List.Pairwise.nil
  | cons hR hrest ih =>
      rcases List.pairwise_cons.mp hp with ⟨hhead, htail⟩
      refine List.pairwise_cons.mpr ⟨?_, ih htail⟩
      intro b' hb'
      obtain ⟨a', ha', hRa'⟩ := forall₂_exists_left hrest b' hb'
      exact hcompat _ _ _ _ hR hRa' (hhead a' ha')

theorem pyTake_sublist {α : Type} (n : ℤ) (l : List α) : (pyTake n l).Sublist l := by
  unfold pyTake
  split <;> exact List.take_sublist _ _

theorem length_pyTake_le {α : Type} (n : ℤ) (l : List α) (hn : 0 ≤ n) :
    (pyTake n l).length ≤ n.toNat := by
  unfold pyTake
  rw [if_neg (by omega)]
  exact List.length_take_le _ _

theorem pyTake_zero {α : Type} (l : List α) : pyTake 0 l = [] := by
  unfold pyTake
  rw [if_neg (by omega)]
  simp

theorem scoredLE_trans (a b c : ScoredProduct) (h1 : scoredLE a b = true)
    (h2 : scoredLE b c = true) : scoredLE a c = true := by
  simp only [scoredLE, decide_eq_true_eq] at h1 h2 ⊢
  exact le_trans h2 h1

theorem scoredLE_total (a b : ScoredProduct) : (scoredLE a b || scoredLE b a) = true := by
  simp only [scoredLE, Bool.or_eq_true, decide_eq_true_eq]
  exact le_total b.combined_score a.combined_score

/-- C4: whenever `combine_results` succeeds, the returned list is
sorted descending by combined score, its length is bounded by a
non-negative limit, limit 0 and empty inputs give the empty list, and
the list arises by finalizing the truncation of a stable descending
sort of the scored candidates: that sort is a permutation of the
first-appearance-ordered candidate list, is sorted, and preserves the
relative order of any two equal-scored candidates. -/
theorem combine_results_ranking (cfg : FusionConfig)
    (scorer : Dict → String → Except Unit ℚ) (heap : Heap)
    (sems graphs : List Ref) (q : String) (limit : ℤ)
    (r : List FinalResult) (h₂ : Heap)
    (hc : combine_results cfg scorer heap sems graphs q limit = some (r, h₂)) :
    List.Pairwise (fun a b : FinalResult => b.combined_score ≤ a.combined_score) r
    ∧ (0 ≤ limit → (r.length : ℤ) ≤ limit)
    ∧ (limit = 0 → r = [])
    ∧ (sems = [] → graphs = [] → r = [])
    ∧ ∃ sp, scoreProducts cfg scorer q (aggregate heap sems graphs).2
          (aggregate heap sems graphs).1 = some sp
        ∧ (sp.mergeSort scoredLE).Perm sp
        ∧ List.Pairwise
            (fun a b : ScoredProduct => b.combined_score ≤ a.combined_score)
            (sp.mergeSort scoredLE)
        ∧ (∀ a b : ScoredProduct, [a, b].Sublist sp →
            a.combined_score = b.combined_score →
            [a, b].Sublist (sp.mergeSort scoredLE))
        ∧ List.Forall₂
            (fun it fr => finalizeItem (aggregate heap sems graphs).2 it = some fr)
            (pyTake limit (sp.mergeSort scoredLE)) r := by
  simp only [combine_results] at hc
  cases hsp : scoreProducts cfg scorer q (aggregate heap sems graphs).2
      (aggregate heap sems graphs).1 with
  | none => rw [hsp] at hc; simp at hc
  | some sp =>
      rw [hsp] at hc
      have hc' : (match mapSome (finalizeItem (aggregate heap sems graphs).2)
          (pyTake limit (sp.mergeSort scoredLE)) with
        | none => none
        | some finals => some (finals, (aggregate heap sems graphs).2))
          = some (r, h₂) := hc
      cases hmp : mapSome (finalizeItem (aggregate heap sems graphs).2)
          (pyTake limit (sp.mergeSort scoredLE)) with
      | none => rw [hmp] at hc'; simp at hc'
      | some finals =>
          rw [hmp] at hc'
          simp only [Option.some.injEq, Prod.mk.injEq] at hc'
          obtain ⟨hfr, hh⟩ := hc'
          subst hfr
          have hf2 := mapSome_forall₂ _ _ _ hmp
          have hsorted : List.Pairwise (fun a b => scoredLE a b = true)
              (sp.mergeSort scoredLE) :=
            List.sorted_mergeSort scoredLE_trans scoredLE_total sp
          have hsorted' : List.Pairwise
              (fun a b : ScoredProduct => b.combined_score ≤ a.combined_score)
              (sp.mergeSort scoredLE) :=
            hsorted.imp (fun h => by
              simpa only [scoredLE, decide_eq_true_eq] using h)
          refine ⟨?_, ?_, ?_, ?_, sp, rfl, List.mergeSort_perm sp scoredLE,
            hsorted', ?_, hf2⟩
          · refine pairwise_transfer hf2 (hsorted'.sublist (pyTake_sublist _ _)) ?_
            intro a a' b b' hab hab' hle
            rw [finalizeItem_combined _ _ _ hab, finalizeItem_combined _ _ _ hab']
            exact round4_mono hle
          · intro hlim
            have h1 := hf2.length_eq
            have h2 := length_pyTake_le limit (sp.mergeSort scoredLE) hlim
            omega
          · intro hlim
            subst hlim
            rw [pyTake_zero] at hmp
            simp only [mapSome, Option.some.injEq] at hmp
            exact hmp.symm
          · intro hsems hgraphs
            subst hsems
            subst hgraphs
            have hagg : aggregate heap [] [] = ([], heap) := rfl
            rw [hagg] at hsp
            simp only [scoreProducts, Option.some.injEq] at hsp
            rw [← hsp] at hmp
            rw [List.mergeSort_nil, pyTake_nil] at hmp
            simp only [mapSome, Option.some.injEq] at hmp
            exact hmp.symm
          · intro a b hsub heq
            refine List.sublist_mergeSort scoredLE_trans scoredLE_total ?_ hsub
            refine List.pairwise_cons.mpr ⟨?_, by simp⟩
            intro b' hb'
            simp only [List.mem_singleton] at hb'
            subst hb'
            simp [scoredLE, heq]

/-- Witness for `combine_results_ranking` at one semantic result and an
always-failing scorer. -/
theorem combine_results_ranking_witness :
    List.Pairwise (fun a b : FinalResult => b.combined_score ≤ a.combined_score) ([{ product_id := Value.str "a", name := Value.str "", brand := Value.str "", price := Value.num 0, semantic_score := round4 (1/2), graph_score := round4 (1/2), combined_score := round4 (calculate_combined_score defaultConfig (1/2) (1/2) ⟨true, false⟩), description := Value.str "", color := Value.str "", category := Value.null, sources := ["semantic"] }] : List FinalResult)
    ∧ ((0 : ℤ) ≤ 10 → ((([{ product_id := Value.str "a", name := Value.str "", brand := Value.str "", price := Value.num 0, semantic_score := round4 (1/2), graph_score := round4 (1/2), combined_score := round4 (calculate_combined_score defaultConfig (1/2) (1/2) ⟨true, false⟩), description := Value.str "", color := Value.str "", category := Value.null, sources := ["semantic"] }] : List FinalResult)).length : ℤ) ≤ 10)
    ∧ ((10 : ℤ) = 0 → ([{ product_id := Value.str "a", name := Value.str "", brand := Value.str "", price := Value.num 0, semantic_score := round4 (1/2), graph_score := round4 (1/2), combined_score := round4 (calculate_combined_score defaultConfig (1/2) (1/2) ⟨true, false⟩), description := Value.str "", color := Value.str "", category := Value.null, sources := ["semantic"] }] : List FinalResult) = [])
    ∧ (([0] : List Ref) = [] → ([] : List Ref) = [] → ([{ product_id := Value.str "a", name := Value.str "", brand := Value.str "", price := Value.num 0, semantic_score := round4 (1/2), graph_score := round4 (1/2), combined_score := round4 (calculate_combined_score defaultConfig (1/2) (1/2) ⟨true, false⟩), description := Value.str "", color := Value.str "", category := Value.null, sources := ["semantic"] }] : List FinalResult) = [])
    ∧ ∃ sp, scoreProducts defaultConfig (fun _ _ => .error ()) "q" (aggregate [[("product_id", Value.str "a"), ("score", Value.num (1/2))]] [0] []).2 (aggregate [[("product_id", Value.str "a"), ("score", Value.num (1/2))]] [0] []).1 = some sp
        ∧ (sp.mergeSort scoredLE).Perm sp
        ∧ List.Pairwise (fun a b : ScoredProduct => b.combined_score ≤ a.combined_score) (sp.mergeSort scoredLE)
        ∧ (∀ a b : ScoredProduct, [a, b].Sublist sp → a.combined_score = b.combined_score → [a, b].Sublist (sp.mergeSort scoredLE))
        ∧ List.Forall₂ (fun it fr => finalizeItem (aggregate [[("product_id", Value.str "a"), ("score", Value.num (1/2))]] [0] []).2 it = some fr) (pyTake 10 (sp.mergeSort scoredLE)) ([{ product_id := Value.str "a", name := Value.str "", brand := Value.str "", price := Value.num 0, semantic_score := round4 (1/2), graph_score := round4 (1/2), combined_score := round4 (calculate_combined_score defaultConfig (1/2) (1/2) ⟨true, false⟩), description := Value.str "", color := Value.str "", category := Value.null, sources := ["semantic"] }] : List FinalResult) :=
  combine_results_ranking defaultConfig (fun _ _ => .error ()) [[("product_id", Value.str "a"), ("score", Value.num (1/2))]] [0] [] "q" 10 [{ product_id := Value.str "a", name := Value.str "", brand := Value.str "", price := Value.num 0, semantic_score := round4 (1/2), graph_score := round4 (1/2), combined_score := round4 (calculate_combined_score defaultConfig (1/2) (1/2) ⟨true, false⟩), description := Value.str "", color := Value.str "", category := Value.null, sources := ["semantic"] }] [[("product_id", Value.str "a"), ("score", Value.num (1/2))]]
    (by
      have htake : ∀ x : ScoredProduct, pyTake 10 [x] = [x] := fun x =>
        pyTake_all 10 [x] (by simp)
      simp [combine_results, aggregate, processSemantic, processGraph, scoreProducts,
        Heap.read, htake, List.mergeSort_singleton, mapSome, finalizeItem, pyRound4,
        Sources.toList, lookupEntry, setEntry, Entry.fresh, pidOfSemantic, Dict.lookup,
        Dict.getd, Value.truthy, pyFloat, List.getD])
